import Mathlib

/-!
Verification development for the catcryption MVP (`src/app.js`).

JS strings are modelled as `List Char`, byte buffers (`Uint8Array`) as
`List Nat` with entries `< 256`.  The libsodium crypto engine and the
platform JSON codec are external collaborators of the repository; they are
modelled from the spec (see the doc comments on the individual
definitions).  Everything else is translated directly from `src/app.js`.
-/

namespace Catcryption

/-! ### Byte and numeral helpers -/

/-- Value of a little-endian base-256 digit list. -/
def bytesToNat : List Nat → Nat
  | [] => 0
  | b :: t => b + 256 * bytesToNat t

/-- One-byte checksum of a byte list (used by the idealized cipher model to
make any single-byte corruption detectable). -/
def chk (l : List Nat) : Nat := l.sum % 256

/-- Little-endian base-255 digits of `x`, computed with explicit fuel so the
definition is structurally recursive (kernel-evaluable). -/
def nat255Go : Nat → Nat → List Nat
  | 0, _ => []
  | fuel + 1, x => if x = 0 then [] else x % 255 :: nat255Go fuel (x / 255)

/-- Little-endian base-255 digits of `x` (canonical: no trailing zero digit). -/
def nat255 (x : Nat) : List Nat := nat255Go x x

/-- Value of a little-endian base-255 digit list. -/
def val255 : List Nat → Nat
  | [] => 0
  | d :: t => d + 255 * val255 t

/-- Injective encoding of a list of (arbitrary) naturals into bytes `< 256`:
each element is emitted as its base-255 digits followed by the separator
byte `255`. -/
def encL (l : List Nat) : List Nat :=
  l.foldr (fun x acc => nat255 x ++ 255 :: acc) []

/-- Worker for `decL`: scans the byte list, accumulating the current
element's value positionally (`acc` so far, next digit weight `mult`). -/
def decGo : List Nat → Nat → Nat → Option (List Nat)
  | [], acc, mult => if acc = 0 ∧ mult = 1 then some [] else none
  | b :: t, acc, mult =>
    if b = 255 then (decGo t 0 1).map (fun l => acc :: l)
    else decGo t (acc + b * mult) (mult * 255)

/-- Decoder for `encL`. -/
def decL (l : List Nat) : Option (List Nat) := decGo l 0 1

theorem val255_nat255Go (fuel x : Nat) (h : x ≤ fuel) :
    val255 (nat255Go fuel x) = x := by
  induction fuel generalizing x with
  | zero => interval_cases x; simp [nat255Go, val255]
  | succ n ih =>
    by_cases hx : x = 0
    · simp [nat255Go, hx, val255]
    · have hdiv : x / 255 ≤ n := by
        have : x / 255 < x := Nat.div_lt_self (Nat.pos_of_ne_zero hx) (by omega)
        omega
      simp only [nat255Go, hx, if_false, val255, ih _ hdiv]
      omega

theorem val255_nat255 (x : Nat) : val255 (nat255 x) = x :=
  val255_nat255Go x x (Nat.le_refl x)

theorem nat255Go_lt (fuel x : Nat) : ∀ d ∈ nat255Go fuel x, d < 255 := by
  induction fuel generalizing x with
  | zero => simp [nat255Go]
  | succ n ih =>
    by_cases hx : x = 0
    · simp [nat255Go, hx]
    · simp only [nat255Go, hx, if_false, List.mem_cons]
      rintro d (rfl | hd)
      · exact Nat.mod_lt _ (by omega)
      · exact ih _ d hd

theorem nat255_lt (x : Nat) : ∀ d ∈ nat255 x, d < 255 := nat255Go_lt x x

theorem encL_lt (l : List Nat) : ∀ b ∈ encL l, b < 256 := by
  induction l with
  | nil => simp [encL]
  | cons x t ih =>
    simp only [encL, List.foldr_cons, List.mem_append, List.mem_cons]
    rintro b (hb | rfl | hb)
    · exact Nat.lt_of_lt_of_le (nat255_lt x b hb) (by omega)
    · omega
    · exact ih b hb

theorem decGo_digits (ds : List Nat) (hds : ∀ d ∈ ds, d < 255) :
    ∀ (rest : List Nat) (acc mult : Nat),
      decGo (ds ++ 255 :: rest) acc mult =
        (decGo rest 0 1).map (fun l => (acc + val255 ds * mult) :: l) := by
  induction ds with
  | nil => intro rest acc mult; simp [decGo, val255]
  | cons d t ih =>
    intro rest acc mult
    have hd : d < 255 := hds d (List.mem_cons_self _ _)
    have ht : ∀ x ∈ t, x < 255 := fun x hx => hds x (List.mem_cons_of_mem _ hx)
    simp only [List.cons_append, decGo, Nat.ne_of_lt hd, if_false, val255,
      List.append_eq]
    rw [ih ht]
    have harith : acc + d * mult + val255 t * (mult * 255) =
        acc + (d + 255 * val255 t) * mult := by ring
    rw [harith]

theorem decL_encL (l : List Nat) : decL (encL l) = some l := by
  induction l with
  | nil => simp [decL, encL, decGo]
  | cons x t ih =>
    have h := decGo_digits (nat255 x) (nat255_lt x) (encL t) 0 1
    simp only [decL, encL, List.foldr_cons] at *
    rw [h, val255_nat255]
    simp [ih]

/-! ### Base64 codec

Modelled from the spec: `sodium.to_base64` / `sodium.from_base64` with the
default URL-safe, no-padding alphabet.  `fromBase64` fails (libsodium
throws) on a character outside the alphabet, on input length `≡ 1 (mod 4)`,
and on non-zero leftover bits; it accepts the empty string. -/

def b64Alphabet : List Char :=
  "ABCDEFGHIJKLMNOPQRSTUVWXYZabcdefghijklmnopqrstuvwxyz0123456789-_".toList

def b64Chr (v : Nat) : Char := b64Alphabet.getD v 'A'

def b64Val (c : Char) : Option Nat :=
  let i := b64Alphabet.indexOf c
  if i < 64 then some i else none

def toBase64 : List Nat → List Char
  | [] => []
  | [a] => [b64Chr (a / 4), b64Chr (a % 4 * 16)]
  | [a, b] => [b64Chr (a / 4), b64Chr (a % 4 * 16 + b / 16), b64Chr (b % 16 * 4)]
  | a :: b :: c :: rest =>
    b64Chr (a / 4) :: b64Chr (a % 4 * 16 + b / 16) ::
      b64Chr (b % 16 * 4 + c / 64) :: b64Chr (c % 64) :: toBase64 rest

def fromBase64 : List Char → Option (List Nat)
  | [] => some []
  | [_] => none
  | [c1, c2] =>
    match b64Val c1, b64Val c2 with
    | some v1, some v2 =>
      if v2 % 16 = 0 then some [v1 * 4 + v2 / 16] else none
    | _, _ => none
  | [c1, c2, c3] =>
    match b64Val c1, b64Val c2, b64Val c3 with
    | some v1, some v2, some v3 =>
      if v3 % 4 = 0 then some [v1 * 4 + v2 / 16, v2 % 16 * 16 + v3 / 4]
      else none
    | _, _, _ => none
  | c1 :: c2 :: c3 :: c4 :: rest =>
    match b64Val c1, b64Val c2, b64Val c3, b64Val c4, fromBase64 rest with
    | some v1, some v2, some v3, some v4, some bs =>
      some ((v1 * 4 + v2 / 16) :: (v2 % 16 * 16 + v3 / 4) ::
        (v3 % 4 * 64 + v4) :: bs)
    | _, _, _, _, _ => none

theorem b64Val_b64Chr : ∀ v < 64, b64Val (b64Chr v) = some v := by decide

theorem b64Chr_ne_colon (v : Nat) : b64Chr v ≠ ':' := by
  by_cases h : v < 64
  · exact (by decide : ∀ v < 64, b64Chr v ≠ ':') v h
  · have hlen : b64Alphabet.length ≤ v := by
      have : b64Alphabet.length = 64 := by decide
      omega
    unfold b64Chr
    rw [List.getD_eq_default _ _ hlen]
    decide

theorem toBase64_ne_colon (l : List Nat) : ∀ c ∈ toBase64 l, c ≠ ':' := by
  induction l using toBase64.induct with
  | case1 => simp [toBase64]
  | case2 a =>
    simp only [toBase64, List.mem_cons, List.not_mem_nil, or_false]
    rintro c (rfl | rfl) <;> exact b64Chr_ne_colon _
  | case3 a b =>
    simp only [toBase64, List.mem_cons, List.not_mem_nil, or_false]
    rintro c (rfl | rfl | rfl) <;> exact b64Chr_ne_colon _
  | case4 a b c rest ih =>
    simp only [toBase64, List.mem_cons]
    rintro x (rfl | rfl | rfl | rfl | hx)
    · exact b64Chr_ne_colon _
    · exact b64Chr_ne_colon _
    · exact b64Chr_ne_colon _
    · exact b64Chr_ne_colon _
    · exact ih x hx

theorem fromBase64_toBase64 (l : List Nat) (hl : ∀ b ∈ l, b < 256) :
    fromBase64 (toBase64 l) = some l := by
  induction l using toBase64.induct with
  | case1 => simp [toBase64, fromBase64]
  | case2 a =>
    have ha : a < 256 := hl a (by simp)
    simp only [toBase64, fromBase64]
    rw [b64Val_b64Chr _ (by omega), b64Val_b64Chr _ (by omega)]
    have h1 : a % 4 * 16 % 16 = 0 := by omega
    simp only [h1, if_true, Option.some.injEq, List.cons.injEq, and_true]
    omega
  | case3 a b =>
    have ha : a < 256 := hl a (by simp)
    have hb : b < 256 := hl b (by simp)
    simp only [toBase64, fromBase64]
    rw [b64Val_b64Chr _ (by omega), b64Val_b64Chr _ (by omega),
      b64Val_b64Chr _ (by omega)]
    have h1 : b % 16 * 4 % 4 = 0 := by omega
    simp only [h1, if_true, Option.some.injEq, List.cons.injEq, and_true]
    constructor <;> omega
  | case4 a b c rest ih =>
    have ha : a < 256 := hl a (by simp)
    have hb : b < 256 := hl b (by simp)
    have hc : c < 256 := hl c (by simp)
    have hrest : ∀ x ∈ rest, x < 256 := fun x hx => hl x (by simp [hx])
    have hshape : ∃ c1 c2 c3 c4 t, toBase64 (a :: b :: c :: rest) =
        c1 :: c2 :: c3 :: c4 :: t ∧ c1 = b64Chr (a / 4) ∧
        c2 = b64Chr (a % 4 * 16 + b / 16) ∧ c3 = b64Chr (b % 16 * 4 + c / 64) ∧
        c4 = b64Chr (c % 64) ∧ t = toBase64 rest := by
      exact ⟨_, _, _, _, _, rfl, rfl, rfl, rfl, rfl, rfl⟩
    obtain ⟨c1, c2, c3, c4, t, heq, h1, h2, h3, h4, h5⟩ := hshape
    rw [heq, fromBase64, h1, h2, h3, h4, h5]
    rw [b64Val_b64Chr _ (by omega), b64Val_b64Chr _ (by omega),
      b64Val_b64Chr _ (by omega), b64Val_b64Chr _ (by omega), ih hrest]
    have e1 : a / 4 * 4 + (a % 4 * 16 + b / 16) / 16 = a := by omega
    have e2 : (a % 4 * 16 + b / 16) % 16 * 16 + (b % 16 * 4 + c / 64) / 4 = b := by
      omega
    have e3 : (b % 16 * 4 + c / 64) % 4 * 64 + c % 64 = c := by omega
    simp [e1, e2, e3]

/-! ### JS string helpers -/

/-- `encryptedMessage.split(":")` from `decryptMessage` (`src/app.js:56`),
on the `List Char` representation of JS strings. -/
def splitColon : List Char → List (List Char)
  | [] => [[]]
  | c :: rest =>
    if c = ':' then [] :: splitColon rest
    else
      match splitColon rest with
      | [] => [[c]]
      | g :: gs => (c :: g) :: gs

/-- `String.prototype.trim`. -/
def jsTrim (s : List Char) : List Char :=
  ((s.dropWhile Char.isWhitespace).reverse.dropWhile Char.isWhitespace).reverse

/-- Modelled from the spec: `sodium.from_string` turns a JS string into a
byte sequence; we use the (injective) sequence of character codes. -/
def strToBytes (s : List Char) : List Nat := s.map Char.toNat

/-- Modelled from the spec: `sodium.to_string` turns a byte sequence back
into a JS string, failing (libsodium throws) when it is not a valid
encoding of a string. -/
def bytesToStr (l : List Nat) : Option (List Char) :=
  l.mapM fun n => if Nat.isValidChar n then some (Char.ofNat n) else none

theorem bytesToStr_strToBytes (s : List Char) :
    bytesToStr (strToBytes s) = some s := by
  induction s with
  | nil => rfl
  | cons c t ih =>
    simp only [strToBytes, List.map_cons, bytesToStr, List.mapM_cons] at *
    rw [if_pos (show Nat.isValidChar c.toNat from c.valid), ih]
    simp [Char.ofNat_toNat]

theorem splitColon_no_colon (c : List Char) (hc : ':' ∉ c) :
    splitColon c = [c] := by
  induction c with
  | nil => rfl
  | cons x t ih =>
    have hx : x ≠ ':' := fun h => hc (h ▸ List.mem_cons_self _ _)
    have ht : ':' ∉ t := fun h => hc (List.mem_cons_of_mem _ h)
    simp only [splitColon, hx, if_false, ih ht]

theorem splitColon_append (a t : List Char) (ha : ':' ∉ a) :
    splitColon (a ++ ':' :: t) = a :: splitColon t := by
  induction a with
  | nil => simp [splitColon]
  | cons x r ih =>
    have hx : x ≠ ':' := fun h => ha (h ▸ List.mem_cons_self _ _)
    have hr : ':' ∉ r := fun h => ha (List.mem_cons_of_mem _ h)
    simp only [List.cons_append, splitColon, hx, if_false, List.append_eq]
    rw [ih hr]

theorem splitColon_three (a b c : List Char)
    (ha : ':' ∉ a) (hb : ':' ∉ b) (hc : ':' ∉ c) :
    splitColon (a ++ ':' :: (b ++ ':' :: c)) = [a, b, c] := by
  rw [splitColon_append _ _ ha, splitColon_append _ _ hb, splitColon_no_colon _ hc]

/-! ### Generic list facts used by the tamper-detection proofs -/

theorem bytesToNat_inj (l1 l2 : List Nat) (hlen : l1.length = l2.length)
    (h1 : ∀ b ∈ l1, b < 256) (h2 : ∀ b ∈ l2, b < 256)
    (h : bytesToNat l1 = bytesToNat l2) : l1 = l2 := by
  induction l1 generalizing l2 with
  | nil => cases l2 with
    | nil => rfl
    | cons y t => simp at hlen
  | cons x t ih =>
    cases l2 with
    | nil => simp at hlen
    | cons y s =>
      simp only [bytesToNat] at h
      have hx : x < 256 := h1 x (List.mem_cons_self _ _)
      have hy : y < 256 := h2 y (List.mem_cons_self _ _)
      have hxy : x = y ∧ bytesToNat t = bytesToNat s := by omega
      have ht : t = s := ih s
        (by simpa using hlen)
        (fun b hb => h1 b (List.mem_cons_of_mem _ hb))
        (fun b hb => h2 b (List.mem_cons_of_mem _ hb)) hxy.2
      rw [hxy.1, ht]

theorem sum_set_getD (l : List Nat) (i b : Nat) (h : i < l.length) :
    (l.set i b).sum + l.getD i 0 = l.sum + b := by
  induction l generalizing i with
  | nil => simp at h
  | cons x t ih =>
    cases i with
    | zero => simp [List.set, List.getD]; omega
    | succ j =>
      have hj : j < t.length := by simpa using h
      simp only [List.set, List.sum_cons, List.getD_cons_succ]
      have := ih j hj
      omega

theorem getD_set_self (l : List Nat) (i b : Nat) (h : i < l.length) :
    (l.set i b).getD i 0 = b := by
  simp [List.getD_eq_getElem?_getD, List.getElem?_set_eq_of_lt _ h]

theorem set_ne_self (l : List Nat) (i b : Nat) (h : i < l.length)
    (hb : b ≠ l.getD i 0) : l.set i b ≠ l := by
  intro heq
  have := getD_set_self l i b h
  rw [heq] at this
  exact hb this.symm

theorem getD_lt_of_forall (l : List Nat) (i : Nat) (h : i < l.length)
    (hl : ∀ b ∈ l, b < 256) : l.getD i 0 < 256 := by
  have : l.getD i 0 ∈ l := by
    rw [List.getD_eq_getElem?_getD, List.getElem?_eq_getElem h]
    exact List.getElem_mem h
  exact hl _ this

theorem chk_set_ne (l : List Nat) (i b : Nat) (h : i < l.length)
    (hlt : ∀ x ∈ l, x < 256) (hb : b < 256) (hne : b ≠ l.getD i 0) :
    chk (l.set i b) ≠ chk l := by
  have hsum := sum_set_getD l i b h
  have hel : l.getD i 0 < 256 := getD_lt_of_forall l i h hlt
  unfold chk
  omega

/-! ### Crypto engine

Modelled from the spec: libsodium's `crypto_box` is an external
collaborator ("an asymmetric-key authenticated-encryption primitive"), so
it is idealized here.  Keys are 32-byte buffers; a public key is an
injective image (`List.reverse`) of its private scalar, and the Diffie-
Hellman shared secret `sharedKey sk pk` is symmetric in the two key pairs
(`sharedKey skA (pubKeyOf skB) = sharedKey skB (pubKeyOf skA)`), which is
the only property of X25519 the envelope relies on.  `cryptoBoxEasy`
produces an authenticated ciphertext: an injective serialization of
(shared secret, nonce, message) plus a one-byte checksum so that any
single-byte corruption is detected, and `cryptoBoxOpenEasy` verifies the
checksum, the shared secret and the nonce before returning the message —
matching the spec's "fails for wrong key pairing, corrupted ciphertext,
or malformed nonce".  Both enforce libsodium's argument-length checks
(keys 32 bytes, nonce `crypto_box_NONCEBYTES = 24`). -/

def NONCEBYTES : Nat := 24

/-- Modelled from the spec: `crypto_box_keypair`'s public key as a function
of the private scalar (any injective involution-free map works; only
injectivity and the `sharedKey` symmetry below are used). -/
def pubKeyOf (sk : List Nat) : List Nat := sk.reverse

/-- Modelled from the spec: the X25519 shared secret of `sk` and `pk`. -/
def sharedKey (sk pk : List Nat) : Nat :=
  bytesToNat sk * bytesToNat pk.reverse

/-- Serialized payload of the idealized authenticated box. -/
def boxBody (s : Nat) (n m : List Nat) : List Nat :=
  encL (s :: n.length :: (n ++ m))

/-- Modelled from the spec: `sodium.crypto_box_easy(m, n, pk, sk)`.
`none` models the exception libsodium throws on bad argument lengths. -/
def cryptoBoxEasy (m n pk sk : List Nat) : Option (List Nat) :=
  if pk.length = 32 ∧ sk.length = 32 ∧ n.length = NONCEBYTES then
    let body := boxBody (sharedKey sk pk) n m
    some (body ++ [chk body])
  else none

/-- Modelled from the spec: `sodium.crypto_box_open_easy(c, n, pk, sk)`.
`none` models the exception thrown on bad argument lengths or on
authentication failure. -/
def cryptoBoxOpenEasy (c n pk sk : List Nat) : Option (List Nat) :=
  if pk.length = 32 ∧ sk.length = 32 ∧ n.length = NONCEBYTES ∧ c ≠ [] then
    let body := c.dropLast
    if c.getLastD 0 = chk body then
      match decL body with
      | some (s :: k :: rest) =>
        if s = sharedKey sk pk ∧ n = rest.take k then some (rest.drop k)
        else none
      | _ => none
    else none
  else none

/-! ### Store and error conditions -/

/-- Parsed shape of the `"myKeys"` record (`generateKeyPair`,
`src/app.js:4-10`): both keys kept as base64 text. -/
structure KeyRecord where
  publicKey : List Char
  privateKey : List Char
deriving DecidableEq

/-- Parsed shape of one `"contacts"` entry (`src/app.js:177`). -/
structure ContactRec where
  name : List Char
  publicKey : List Char
deriving DecidableEq

/-- Modelled from the spec: a raw `localStorage` string, represented by
what `JSON.parse` does to it — either it is `JSON.stringify a` for a
record `a` of the expected shape (`parsed a`), or it is a string on which
`JSON.parse` throws a `SyntaxError` (`malformed s`).  (Well-formed JSON of
an unexpected shape is not needed by any claim.) -/
inductive StoredJson (α : Type) where
  | parsed (a : α)
  | malformed (s : List Char)
deriving DecidableEq

/-- The two `localStorage` slots used by `src/app.js`: `"myKeys"` and
`"contacts"`; `none` is an absent slot (`getItem` returns `null`). -/
structure Storage where
  myKeys : Option (StoredJson KeyRecord)
  contacts : Option (StoredJson (List ContactRec))
deriving DecidableEq

/-- The distinct failure conditions observable from `src/app.js`.  The
first three correspond to the three `throw new Error(...)` sites
(`NoIdentity`, `MalformedEnvelope`, `DecryptionFailed` in the spec's
taxonomy); the next three are exceptions of the platform or of libsodium
that the code lets escape unclassified.  `corruptState` and
`invalidRecipient` are the spec's `CorruptStateError` / `InvalidRecipient`
conditions: they are part of the spec's taxonomy but no code path ever
produces them. -/
inductive JsError where
  | noKeypair
  | invalidFormat
  | decryptFailed
  | base64Error
  | jsonParseError
  | undefinedProp
  | badKeyLength
  | corruptState
  | invalidRecipient
deriving DecidableEq

/-- `loadMyKeys` (`src/app.js:16-19`): `raw ? JSON.parse(raw) : null`. -/
def loadMyKeys (st : Storage) : Except JsError (Option KeyRecord) :=
  match st.myKeys with
  | none => .ok none
  | some (.parsed k) => .ok (some k)
  | some (.malformed _) => .error .jsonParseError

/-- `loadContacts` (`src/app.js:21-23`):
`JSON.parse(localStorage.getItem("contacts") || "[]")`. -/
def loadContacts (st : Storage) : Except JsError (List ContactRec) :=
  match st.contacts with
  | none => .ok []
  | some (.parsed l) => .ok l
  | some (.malformed _) => .error .jsonParseError

/-- `saveContacts` (`src/app.js:25-27`). -/
def saveContacts (st : Storage) (contacts : List ContactRec) : Storage :=
  { st with contacts := some (.parsed contacts) }

/-- `saveMyKeys` (`src/app.js:12-14`). -/
def saveMyKeys (st : Storage) (keys : KeyRecord) : Storage :=
  { st with myKeys := some (.parsed keys) }

/-- `generateKeyPair` (`src/app.js:4-10`); the CSPRNG draw behind
`crypto_box_keypair` is passed in as the private scalar `sk`. -/
def generateKeyPair (sk : List Nat) : KeyRecord :=
  { publicKey := toBase64 (pubKeyOf sk), privateKey := toBase64 sk }

/-! ### Encryption and decryption (`src/app.js:32-75`) -/

/-- `encryptMessage` (`src/app.js:32-47`).  The fresh CSPRNG draw
`sodium.randombytes_buf(sodium.crypto_box_NONCEBYTES)` is passed in as
`nonce`. -/
def encryptMessage (st : Storage) (recipientPublicKeyBase64 message : List Char)
    (nonce : List Nat) : Except JsError (List Char) :=
  match loadMyKeys st with
  | .error e => .error e
  | .ok none => .error .noKeypair
  | .ok (some myKeys) =>
    match fromBase64 recipientPublicKeyBase64 with
    | none => .error .base64Error
    | some recipientPublicKey =>
      match fromBase64 myKeys.privateKey with
      | none => .error .base64Error
      | some sk =>
        match cryptoBoxEasy (strToBytes message) nonce recipientPublicKey sk with
        | none => .error .badKeyLength
        | some cipher =>
          .ok (myKeys.publicKey ++ ':' :: (toBase64 nonce ++ ':' :: toBase64 cipher))

/-- `decryptMessage` (`src/app.js:52-75`).  Exactly the code's error
behavior: a non-3-part split throws "Invalid message format"; a field on
which `sodium.from_base64` throws propagates that (uncaught) exception;
everything inside the `try` block — including decoding the stored private
key — is mapped to the single "Failed to decrypt message" error. -/
def decryptMessage (st : Storage) (encryptedMessage : List Char) :
    Except JsError (List Char) :=
  match loadMyKeys st with
  | .error e => .error e
  | .ok none => .error .noKeypair
  | .ok (some myKeys) =>
    match splitColon encryptedMessage with
    | [senderPublicKeyB64, nonceB64, cipherB64] =>
      match fromBase64 senderPublicKeyB64, fromBase64 nonceB64,
          fromBase64 cipherB64 with
      | some senderPublicKey, some nonce, some cipher =>
        match fromBase64 myKeys.privateKey with
        | none => .error .decryptFailed
        | some sk =>
          match cryptoBoxOpenEasy cipher nonce senderPublicKey sk with
          | none => .error .decryptFailed
          | some pt =>
            match bytesToStr pt with
            | none => .error .decryptFailed
            | some s => .ok s
      | _, _, _ => .error .base64Error
    | _ => .error .invalidFormat

/-! ### Button handlers (`init()`, `src/app.js:170-255`)

Each handler is a function from the persisted storage plus its DOM/user
inputs to an observable outcome and the resulting storage. -/

/-- Digit-string to number, for JS array indexing. -/
def decToNat? (s : List Char) : Option Nat :=
  if s ≠ [] ∧ s.all Char.isDigit then
    some (s.foldl (fun a c => a * 10 + (c.toNat - 48)) 0)
  else none

/-- Canonical decimal rendering of `n` (fuel-based so it is structurally
recursive). -/
def natToDecGo : Nat → Nat → List Char
  | 0, _ => []
  | fuel + 1, n =>
    if n = 0 then [] else natToDecGo fuel (n / 10) ++ [Char.ofNat (48 + n % 10)]

/-- Canonical decimal rendering of `n`, as produced by `option.value = i`
in `renderContacts` (`src/app.js:164`). -/
def natToDec (n : Nat) : List Char :=
  if n = 0 then ['0'] else natToDecGo n n

/-- `contacts[selectedIndex]` where `selectedIndex` is a JS string: a JS
array property access hits an element exactly when the string is the
canonical decimal form of an in-range index; anything else (including
`"007"` or non-digits) yields `undefined` (`none`). -/
def jsIndex (contacts : List ContactRec) (s : List Char) : Option ContactRec :=
  match decToNat? s with
  | some n => if natToDec n = s then contacts.get? n else none
  | none => none

/-- Observable outcomes of `encryptBtn.onclick` (`src/app.js:187-203`). -/
inductive EncOutcome where
  | alertSelectRecipient
  | alertTypeMessage
  | copied (token : List Char)
  | alertEncryptFailed (e : JsError)
  | uncaught (e : JsError)
deriving DecidableEq

/-- `encryptBtn.onclick` (`src/app.js:187-203`).  An out-of-range
`selectedIndex` leaves `contact` as `undefined`; the later
`contact.publicKey` access inside the `try` block throws a `TypeError`
that the `catch` turns into the generic "Encryption failed" alert. -/
def encryptClick (st : Storage) (selectedIndex plainTextVal : List Char)
    (nonce : List Nat) : EncOutcome × Storage :=
  if selectedIndex = [] then (.alertSelectRecipient, st)
  else
    match loadContacts st with
    | .error e => (.uncaught e, st)
    | .ok contacts =>
      let contact? := jsIndex contacts selectedIndex
      let message := jsTrim plainTextVal
      if message = [] then (.alertTypeMessage, st)
      else
        match contact? with
        | none => (.alertEncryptFailed .undefinedProp, st)
        | some contact =>
          match encryptMessage st contact.publicKey message nonce with
          | .ok token => (.copied token, st)
          | .error e => (.alertEncryptFailed e, st)

/-- Observable outcomes of `decryptBtn.onclick` (`src/app.js:205-217`). -/
inductive DecOutcome where
  | alertPasteFirst
  | shown (plaintext : List Char)
  | shownError (e : JsError)
deriving DecidableEq

/-- `decryptBtn.onclick` (`src/app.js:205-217`): every exception from
`decryptMessage` is caught and displayed. -/
def decryptClick (st : Storage) (encryptedInputVal : List Char) :
    DecOutcome × Storage :=
  let encryptedText := jsTrim encryptedInputVal
  if encryptedText = [] then (.alertPasteFirst, st)
  else
    match decryptMessage st encryptedText with
    | .ok decrypted => (.shown decrypted, st)
    | .error e => (.shownError e, st)

/-- Observable outcomes of `addContactBtn.onclick` (`src/app.js:172-185`). -/
inductive AddOutcome where
  | alertRequired
  | added
  | uncaught (e : JsError)
deriving DecidableEq

/-- `addContactBtn.onclick` (`src/app.js:172-185`): trims both inputs,
rejects if either is empty, otherwise appends and persists. -/
def addContactClick (st : Storage) (nameInput keyInput : List Char) :
    AddOutcome × Storage :=
  let name := jsTrim nameInput
  let key := jsTrim keyInput
  if name = [] ∨ key = [] then (.alertRequired, st)
  else
    match loadContacts st with
    | .error e => (.uncaught e, st)
    | .ok contacts =>
      (.added, saveContacts st (contacts ++ [{ name := name, publicKey := key }]))

/-- Observable outcomes of the QR success callback (`src/app.js:238-255`). -/
inductive ScanOutcome where
  | alertNameRequired
  | added
  | alertAddFailed (e : JsError)
deriving DecidableEq

/-- The QR-scan success callback inside `scanQrBtn.onclick`
(`src/app.js:238-255`): `decodedText` is the scanned string,
`promptResult` is what `prompt(...)` returned (`none` = cancelled).  The
scanned text is stored verbatim as the contact's public key, with no
trimming and no validation; only `if (!name)` guards the name. -/
def scanQrAdd (st : Storage) (decodedText : List Char)
    (promptResult : Option (List Char)) : ScanOutcome × Storage :=
  match promptResult with
  | none => (.alertNameRequired, st)
  | some name =>
    if name = [] then (.alertNameRequired, st)
    else
      match loadContacts st with
      | .error e => (.alertAddFailed e, st)
      | .ok contacts =>
        (.added,
          saveContacts st (contacts ++ [{ name := name, publicKey := decodedText }]))

/-! ### Evaluation lemmas -/

instance {ε α : Type} [DecidableEq ε] [DecidableEq α] : DecidableEq (Except ε α)
  | .error a, .error b =>
    if h : a = b then .isTrue (h ▸ rfl)
    else .isFalse (fun hc => h (Except.error.inj hc))
  | .error _, .ok _ => .isFalse (fun hc => Except.noConfusion hc)
  | .ok _, .error _ => .isFalse (fun hc => Except.noConfusion hc)
  | .ok a, .ok b =>
    if h : a = b then .isTrue (h ▸ rfl)
    else .isFalse (fun hc => h (Except.ok.inj hc))

theorem toBase64_not_mem_colon (l : List Nat) : ':' ∉ toBase64 l :=
  fun h => toBase64_ne_colon l ':' h rfl

/-- The ciphertext `encryptMessage` produces for given keys, message and
nonce (the successful value of `cryptoBoxEasy`). -/
def sealCipher (sk pk : List Nat) (msg : List Char) (nonce : List Nat) :
    List Nat :=
  boxBody (sharedKey sk pk) nonce (strToBytes msg) ++
    [chk (boxBody (sharedKey sk pk) nonce (strToBytes msg))]

theorem cryptoBoxEasy_eq_sealCipher (sk pk : List Nat) (msg : List Char)
    (nonce : List Nat) (hpkl : pk.length = 32) (hskl : sk.length = 32)
    (hnl : nonce.length = 24) :
    cryptoBoxEasy (strToBytes msg) nonce pk sk = some (sealCipher sk pk msg nonce) := by
  unfold cryptoBoxEasy sealCipher
  rw [if_pos ⟨hpkl, hskl, hnl⟩]

theorem sealCipher_lt (sk pk : List Nat) (msg : List Char) (nonce : List Nat) :
    ∀ b ∈ sealCipher sk pk msg nonce, b < 256 := by
  intro b hb
  unfold sealCipher boxBody at hb
  rcases List.mem_append.mp hb with h | h
  · exact encL_lt _ b h
  · have : b = chk (boxBody (sharedKey sk pk) nonce (strToBytes msg)) := by
      simpa [boxBody] using h
    rw [this]
    exact Nat.mod_lt _ (by omega)

theorem sharedKey_pubKeyOf (a b : List Nat) :
    sharedKey a (pubKeyOf b) = bytesToNat a * bytesToNat b := by
  simp [sharedKey, pubKeyOf, List.reverse_reverse]

theorem sealCipher_ne_nil (sk pk : List Nat) (msg : List Char)
    (nonce : List Nat) : sealCipher sk pk msg nonce ≠ [] := by
  unfold sealCipher
  simp

/-- Opening the sealed box with the consistent key roles recovers the
message bytes. -/
theorem open_sealCipher (skA skB : List Nat) (msg : List Char)
    (nonce : List Nat) (hA : skA.length = 32) (hB : skB.length = 32)
    (hn : nonce.length = 24) :
    cryptoBoxOpenEasy (sealCipher skA (pubKeyOf skB) msg nonce) nonce
      (pubKeyOf skA) skB = some (strToBytes msg) := by
  unfold cryptoBoxOpenEasy
  rw [if_pos ⟨by simpa [pubKeyOf] using hA, hB, hn,
    sealCipher_ne_nil skA (pubKeyOf skB) msg nonce⟩]
  unfold sealCipher
  rw [List.dropLast_concat]
  simp only [List.getLastD_concat, if_true]
  unfold boxBody
  rw [decL_encL]
  have hs : sharedKey skA (pubKeyOf skB) = sharedKey skB (pubKeyOf skA) := by
    rw [sharedKey_pubKeyOf, sharedKey_pubKeyOf, Nat.mul_comm]
  simp [hs, List.take_left, List.drop_left]

/-- Evaluation of `encryptMessage` when the identity record parses and the
arguments are well-formed. -/
theorem encryptMessage_eval (st : Storage) (k : KeyRecord) (sk pk : List Nat)
    (msg : List Char) (nonce : List Nat)
    (hid : st.myKeys = some (.parsed k)) (hpriv : k.privateKey = toBase64 sk)
    (hsk : ∀ b ∈ sk, b < 256) (hpk : ∀ b ∈ pk, b < 256)
    (hskl : sk.length = 32) (hpkl : pk.length = 32) (hnl : nonce.length = 24) :
    encryptMessage st (toBase64 pk) msg nonce =
      .ok (k.publicKey ++ ':' ::
        (toBase64 nonce ++ ':' :: toBase64 (sealCipher sk pk msg nonce))) := by
  unfold encryptMessage
  simp only [loadMyKeys, hid, hpriv, fromBase64_toBase64 pk hpk,
    fromBase64_toBase64 sk hsk,
    cryptoBoxEasy_eq_sealCipher sk pk msg nonce hpkl hskl hnl]

/-- Evaluation of `decryptMessage` on a well-formed three-field token:
everything reduces to the crypto engine's `open`. -/
theorem decryptMessage_eval (st : Storage) (k : KeyRecord) (sk a n c : List Nat)
    (hid : st.myKeys = some (.parsed k)) (hpriv : k.privateKey = toBase64 sk)
    (ha : ∀ b ∈ a, b < 256) (hn : ∀ b ∈ n, b < 256) (hc : ∀ b ∈ c, b < 256)
    (hsk : ∀ b ∈ sk, b < 256) :
    decryptMessage st (toBase64 a ++ ':' :: (toBase64 n ++ ':' :: toBase64 c)) =
      match cryptoBoxOpenEasy c n a sk with
      | none => .error .decryptFailed
      | some pt =>
        match bytesToStr pt with
        | none => .error .decryptFailed
        | some s => .ok s := by
  unfold decryptMessage
  rw [splitColon_three _ _ _ (toBase64_not_mem_colon a) (toBase64_not_mem_colon n)
    (toBase64_not_mem_colon c)]
  simp only [loadMyKeys, hid, hpriv, fromBase64_toBase64 a ha,
    fromBase64_toBase64 n hn, fromBase64_toBase64 c hc, fromBase64_toBase64 sk hsk]

/-! ### Concrete inputs used by the witnesses -/

def skA0 : List Nat := (List.range 32).map (fun i => i + 1)

def skB0 : List Nat := (List.range 32).map (fun i => i + 101)

def skC0 : List Nat := (List.range 32).map (fun i => i + 151)

def nonce0 : List Nat := (List.range 24).map (fun i => i + 3)

def nonce1 : List Nat := (List.range 24).map (fun i => i + 5)

def stA0 : Storage := ⟨some (.parsed (generateKeyPair skA0)), none⟩

def stB0 : Storage := ⟨some (.parsed (generateKeyPair skB0)), none⟩

def stC0 : Storage := ⟨some (.parsed (generateKeyPair skC0)), none⟩

def msg0 : List Char := "hello".toList

/-! ### Claims -/

/-- Claim C1: for every plaintext, recipient keypair `(pkB, skB)` and
sender keypair `(pkA, skA)`, decrypting with identity `skB` the token
produced by sealing the plaintext to `pkB` with `skA` recovers exactly the
plaintext: `decryptMessage` after `encryptMessage` is the identity when
the key roles are consistent. -/
theorem claim1_round_trip (stA stB : Storage) (skA skB : List Nat)
    (msg : List Char) (nonce : List Nat)
    (hA : stA.myKeys = some (.parsed (generateKeyPair skA)))
    (hB : stB.myKeys = some (.parsed (generateKeyPair skB)))
    (hAl : skA.length = 32) (hAb : ∀ b ∈ skA, b < 256)
    (hBl : skB.length = 32) (hBb : ∀ b ∈ skB, b < 256)
    (hnl : nonce.length = 24) (hnb : ∀ b ∈ nonce, b < 256) :
    ∃ token, encryptMessage stA (toBase64 (pubKeyOf skB)) msg nonce = .ok token ∧
      decryptMessage stB token = .ok msg := by
  have hpkB : ∀ b ∈ pubKeyOf skB, b < 256 := fun b hb =>
    hBb b (List.mem_reverse.mp hb)
  have hpkA : ∀ b ∈ pubKeyOf skA, b < 256 := fun b hb =>
    hAb b (List.mem_reverse.mp hb)
  have hpkBl : (pubKeyOf skB).length = 32 := by simpa [pubKeyOf] using hBl
  have henc := encryptMessage_eval stA (generateKeyPair skA) skA (pubKeyOf skB)
    msg nonce hA rfl hAb hpkB hAl hpkBl hnl
  refine ⟨_, henc, ?_⟩
  have hdec := decryptMessage_eval stB (generateKeyPair skB) skB (pubKeyOf skA)
    nonce (sealCipher skA (pubKeyOf skB) msg nonce) hB rfl hpkA hnb
    (sealCipher_lt _ _ _ _) hBb
  simp only [generateKeyPair]
  rw [hdec, open_sealCipher skA skB msg nonce hAl hBl hnl]
  simp [bytesToStr_strToBytes]

/-- Witness for C1: Alice's concrete keys, Bob's concrete keys, the
message "hello" and a concrete nonce round-trip exactly. -/
theorem claim1_round_trip_w :
    ∃ token,
      encryptMessage stA0 (toBase64 (pubKeyOf skB0)) msg0 nonce0 = .ok token ∧
        decryptMessage stB0 token = .ok msg0 :=
  claim1_round_trip stA0 stB0 skA0 skB0 msg0 nonce0 rfl rfl (by decide)
    (by decide) (by decide) (by decide) (by decide) (by decide)

/-- Claim C5: with no identity generated (the `myKeys` slot absent), both
`encryptMessage` and `decryptMessage` fail with the `NoIdentity` condition
("No local keypair found") on every input, before doing anything else. -/
theorem claim5_no_identity (st : Storage) (h : st.myKeys = none)
    (rpk msg tok : List Char) (nonce : List Nat) :
    encryptMessage st rpk msg nonce = .error .noKeypair ∧
      decryptMessage st tok = .error .noKeypair := by
  constructor
  · simp [encryptMessage, loadMyKeys, h]
  · simp [decryptMessage, loadMyKeys, h]

/-- Witness for C5: on empty storage, encrypting for a valid recipient key
and decrypting a malformed token both report the missing identity. -/
theorem claim5_no_identity_w :
    encryptMessage ⟨none, none⟩ (toBase64 (pubKeyOf skB0)) msg0 nonce0 =
        .error .noKeypair ∧
      decryptMessage ⟨none, none⟩ "not-a-token".toList = .error .noKeypair :=
  claim5_no_identity ⟨none, none⟩ rfl _ _ _ _

theorem toBase64_inj (l1 l2 : List Nat) (h1 : ∀ b ∈ l1, b < 256)
    (h2 : ∀ b ∈ l2, b < 256) (h : toBase64 l1 = toBase64 l2) : l1 = l2 := by
  have hf := congrArg fromBase64 h
  rw [fromBase64_toBase64 l1 h1, fromBase64_toBase64 l2 h2] at hf
  exact Option.some.inj hf

theorem sealCipher_nonce_inj (sk pk : List Nat) (msg : List Char)
    (n1 n2 : List Nat)
    (h : sealCipher sk pk msg n1 = sealCipher sk pk msg n2) : n1 = n2 := by
  have hbody : boxBody (sharedKey sk pk) n1 (strToBytes msg) =
      boxBody (sharedKey sk pk) n2 (strToBytes msg) := by
    have := congrArg List.dropLast h
    unfold sealCipher at this
    rwa [List.dropLast_concat, List.dropLast_concat] at this
  have h1 := decL_encL (sharedKey sk pk :: n1.length :: (n1 ++ strToBytes msg))
  have h2 := decL_encL (sharedKey sk pk :: n2.length :: (n2 ++ strToBytes msg))
  unfold boxBody at hbody
  rw [hbody, h2] at h1
  have hl : n1.length = n2.length ∧ n1 ++ strToBytes msg = n2 ++ strToBytes msg := by
    have := Option.some.inj h1
    simp only [List.cons.injEq] at this
    exact ⟨this.2.1.symm, this.2.2.symm⟩
  exact (List.append_inj hl.2 hl.1).1

/-- Claim C4: the nonce sealed into a token is exactly the CSPRNG draw of
that invocation (never derived from the message or the keys), so two seal
calls on identical plaintext and keys but distinct random draws produce
different tokens with different nonce fields and different ciphertexts,
each of which independently decrypts to the original plaintext. -/
theorem claim4_fresh_nonce (stA stB : Storage) (skA skB : List Nat)
    (msg : List Char) (n1 n2 : List Nat)
    (hA : stA.myKeys = some (.parsed (generateKeyPair skA)))
    (hB : stB.myKeys = some (.parsed (generateKeyPair skB)))
    (hAl : skA.length = 32) (hAb : ∀ b ∈ skA, b < 256)
    (hBl : skB.length = 32) (hBb : ∀ b ∈ skB, b < 256)
    (h1l : n1.length = 24) (h1b : ∀ b ∈ n1, b < 256)
    (h2l : n2.length = 24) (h2b : ∀ b ∈ n2, b < 256)
    (hne : n1 ≠ n2) :
    encryptMessage stA (toBase64 (pubKeyOf skB)) msg n1 =
        .ok (toBase64 (pubKeyOf skA) ++ ':' ::
          (toBase64 n1 ++ ':' :: toBase64 (sealCipher skA (pubKeyOf skB) msg n1))) ∧
      encryptMessage stA (toBase64 (pubKeyOf skB)) msg n2 =
        .ok (toBase64 (pubKeyOf skA) ++ ':' ::
          (toBase64 n2 ++ ':' :: toBase64 (sealCipher skA (pubKeyOf skB) msg n2))) ∧
      toBase64 n1 ≠ toBase64 n2 ∧
      sealCipher skA (pubKeyOf skB) msg n1 ≠ sealCipher skA (pubKeyOf skB) msg n2 ∧
      (toBase64 (pubKeyOf skA) ++ ':' ::
          (toBase64 n1 ++ ':' :: toBase64 (sealCipher skA (pubKeyOf skB) msg n1))) ≠
        (toBase64 (pubKeyOf skA) ++ ':' ::
          (toBase64 n2 ++ ':' :: toBase64 (sealCipher skA (pubKeyOf skB) msg n2))) ∧
      decryptMessage stB (toBase64 (pubKeyOf skA) ++ ':' ::
          (toBase64 n1 ++ ':' :: toBase64 (sealCipher skA (pubKeyOf skB) msg n1))) =
        .ok msg ∧
      decryptMessage stB (toBase64 (pubKeyOf skA) ++ ':' ::
          (toBase64 n2 ++ ':' :: toBase64 (sealCipher skA (pubKeyOf skB) msg n2))) =
        .ok msg := by
  have hpkB : ∀ b ∈ pubKeyOf skB, b < 256 := fun b hb =>
    hBb b (List.mem_reverse.mp hb)
  have hpkA : ∀ b ∈ pubKeyOf skA, b < 256 := fun b hb =>
    hAb b (List.mem_reverse.mp hb)
  have hpkBl : (pubKeyOf skB).length = 32 := by simpa [pubKeyOf] using hBl
  have hn64 : toBase64 n1 ≠ toBase64 n2 := fun h => hne (toBase64_inj n1 n2 h1b h2b h)
  refine ⟨?_, ?_, hn64, fun h => hne (sealCipher_nonce_inj _ _ _ _ _ h), ?_, ?_, ?_⟩
  · have := encryptMessage_eval stA (generateKeyPair skA) skA (pubKeyOf skB)
      msg n1 hA rfl hAb hpkB hAl hpkBl h1l
    simpa [generateKeyPair] using this
  · have := encryptMessage_eval stA (generateKeyPair skA) skA (pubKeyOf skB)
      msg n2 hA rfl hAb hpkB hAl hpkBl h2l
    simpa [generateKeyPair] using this
  · intro h
    have := congrArg splitColon h
    rw [splitColon_three _ _ _ (toBase64_not_mem_colon _) (toBase64_not_mem_colon _)
        (toBase64_not_mem_colon _),
      splitColon_three _ _ _ (toBase64_not_mem_colon _) (toBase64_not_mem_colon _)
        (toBase64_not_mem_colon _)] at this
    simp only [List.cons.injEq] at this
    exact hn64 this.2.1
  · rw [decryptMessage_eval stB (generateKeyPair skB) skB (pubKeyOf skA) n1
      (sealCipher skA (pubKeyOf skB) msg n1) hB rfl hpkA h1b
      (sealCipher_lt _ _ _ _) hBb,
      open_sealCipher skA skB msg n1 hAl hBl h1l]
    simp [bytesToStr_strToBytes]
  · rw [decryptMessage_eval stB (generateKeyPair skB) skB (pubKeyOf skA) n2
      (sealCipher skA (pubKeyOf skB) msg n2) hB rfl hpkA h2b
      (sealCipher_lt _ _ _ _) hBb,
      open_sealCipher skA skB msg n2 hAl hBl h2l]
    simp [bytesToStr_strToBytes]

/-- Witness for C4: two concrete distinct nonce draws on the same message
and keys give different tokens and ciphertexts, both decrypting to
"hello". -/
theorem claim4_fresh_nonce_w :
    encryptMessage stA0 (toBase64 (pubKeyOf skB0)) msg0 nonce0 =
        .ok (toBase64 (pubKeyOf skA0) ++ ':' ::
          (toBase64 nonce0 ++ ':' :: toBase64 (sealCipher skA0 (pubKeyOf skB0) msg0 nonce0))) ∧
      encryptMessage stA0 (toBase64 (pubKeyOf skB0)) msg0 nonce1 =
        .ok (toBase64 (pubKeyOf skA0) ++ ':' ::
          (toBase64 nonce1 ++ ':' :: toBase64 (sealCipher skA0 (pubKeyOf skB0) msg0 nonce1))) ∧
      toBase64 nonce0 ≠ toBase64 nonce1 ∧
      sealCipher skA0 (pubKeyOf skB0) msg0 nonce0 ≠
        sealCipher skA0 (pubKeyOf skB0) msg0 nonce1 ∧
      (toBase64 (pubKeyOf skA0) ++ ':' ::
          (toBase64 nonce0 ++ ':' :: toBase64 (sealCipher skA0 (pubKeyOf skB0) msg0 nonce0))) ≠
        (toBase64 (pubKeyOf skA0) ++ ':' ::
          (toBase64 nonce1 ++ ':' :: toBase64 (sealCipher skA0 (pubKeyOf skB0) msg0 nonce1))) ∧
      decryptMessage stB0 (toBase64 (pubKeyOf skA0) ++ ':' ::
          (toBase64 nonce0 ++ ':' :: toBase64 (sealCipher skA0 (pubKeyOf skB0) msg0 nonce0))) =
        .ok msg0 ∧
      decryptMessage stB0 (toBase64 (pubKeyOf skA0) ++ ':' ::
          (toBase64 nonce1 ++ ':' :: toBase64 (sealCipher skA0 (pubKeyOf skB0) msg0 nonce1))) =
        .ok msg0 :=
  claim4_fresh_nonce stA0 stB0 skA0 skB0 msg0 nonce0 nonce1 rfl rfl (by decide)
    (by decide) (by decide) (by decide) (by decide) (by decide) (by decide)
    (by decide) (by decide)

/-- Claim C7: atomicity on failure — for every starting persisted state,
a failed operation leaves the stored identity and contact list exactly as
they were.  `encryptClick` and `decryptClick` never mutate storage at all
(proved unconditionally, which subsumes the failure case), and a failed
`addContactClick` returns the storage unchanged. -/
theorem claim7_atomic_failure (st : Storage) (idx pt : List Char)
    (nonce : List Nat) (inp nm ky : List Char)
    (hfail : (addContactClick st nm ky).1 ≠ .added) :
    (encryptClick st idx pt nonce).2 = st ∧
      (decryptClick st inp).2 = st ∧
      (addContactClick st nm ky).2 = st := by
  refine ⟨?_, ?_, ?_⟩
  · simp only [encryptClick]
    repeat' split
    all_goals rfl
  · simp only [decryptClick]
    repeat' split
    all_goals rfl
  · by_cases h : jsTrim nm = [] ∨ jsTrim ky = []
    · simp [addContactClick, h]
    · simp only [addContactClick, h, if_false] at hfail ⊢
      cases hlc : loadContacts st with
      | error e => rfl
      | ok contacts =>
        rw [hlc] at hfail
        simp at hfail

/-- Witness for C7: a rejected add (empty inputs) and arbitrary encrypt /
decrypt clicks leave the concrete storage untouched. -/
theorem claim7_atomic_failure_w :
    (encryptClick stA0 ['0'] msg0 nonce0).2 = stA0 ∧
      (decryptClick stA0 msg0).2 = stA0 ∧
      (addContactClick stA0 [] []).2 = stA0 :=
  claim7_atomic_failure stA0 ['0'] msg0 nonce0 msg0 [] [] (by decide)

/-- Claim C8: `loadContacts` returns `[]` when the contacts slot was never
written (absence is not an error), and a successful `addContactClick`
makes `loadContacts` return exactly the previous list with the one new
contact appended at the end. -/
theorem claim8_contacts_append (st : Storage) (nameInput keyInput : List Char)
    (old : List ContactRec) :
    (st.contacts = none → loadContacts st = .ok []) ∧
      (loadContacts st = .ok old →
        ∀ st', addContactClick st nameInput keyInput = (.added, st') →
          loadContacts st' =
            .ok (old ++ [{ name := jsTrim nameInput, publicKey := jsTrim keyInput }])) := by
  refine ⟨fun habsent => by simp [loadContacts, habsent], ?_⟩
  intro hold st' hadd
  unfold addContactClick at hadd
  by_cases hempty : jsTrim nameInput = [] ∨ jsTrim keyInput = []
  · rw [if_pos hempty] at hadd
    exact absurd (congrArg Prod.fst hadd) (by simp)
  · rw [if_neg hempty, hold] at hadd
    have hst' : st' =
        saveContacts st (old ++ [{ name := jsTrim nameInput, publicKey := jsTrim keyInput }]) := by
      have := congrArg Prod.snd hadd
      simpa using this.symm
    rw [hst']
    simp [loadContacts, saveContacts]

/-- Witness for C8: starting from an empty slot (`loadContacts` gives `[]`),
adding a concrete contact makes `loadContacts` return exactly that one
appended contact. -/
theorem claim8_contacts_append_w :
    loadContacts stA0 = .ok [] ∧
      loadContacts (addContactClick stA0 "bob".toList "bobkey".toList).2 =
        .ok ([] ++ [{ name := jsTrim "bob".toList, publicKey := jsTrim "bobkey".toList }]) :=
  ⟨(claim8_contacts_append stA0 "bob".toList "bobkey".toList []).1 rfl,
    (claim8_contacts_append stA0 "bob".toList "bobkey".toList []).2 rfl
      (addContactClick stA0 "bob".toList "bobkey".toList).2 (by decide)⟩

/-- Claim C10: the QR-scan path appends the scanned text verbatim as the
contact's public key with no validation (an empty scan is accepted and
persisted); only the prompted name is checked for non-emptiness (cancel or
empty reject), unlike the manual path which rejects when either trimmed
field is empty. -/
theorem claim10_qr_scan_verbatim (st : Storage) (contacts : List ContactRec)
    (decodedText name nm ky : List Char)
    (hload : loadContacts st = .ok contacts) (hname : name ≠ [])
    (hmanual : jsTrim nm = [] ∨ jsTrim ky = []) :
    scanQrAdd st decodedText (some name) =
        (.added, saveContacts st (contacts ++ [{ name := name, publicKey := decodedText }])) ∧
      loadContacts
          (saveContacts st (contacts ++ [{ name := name, publicKey := decodedText }])) =
        .ok (contacts ++ [{ name := name, publicKey := decodedText }]) ∧
      scanQrAdd st decodedText none = (.alertNameRequired, st) ∧
      scanQrAdd st decodedText (some []) = (.alertNameRequired, st) ∧
      addContactClick st nm ky = (.alertRequired, st) := by
  refine ⟨?_, by simp [loadContacts, saveContacts], rfl, by simp [scanQrAdd], ?_⟩
  · simp only [scanQrAdd]
    rw [if_neg hname, hload]
  · unfold addContactClick
    rw [if_pos hmanual]

/-- Witness for C10: an empty scanned string is accepted and stored
verbatim as a public key under the prompted name "n", while the manual
path rejects a whitespace-only key. -/
theorem claim10_qr_scan_verbatim_w :
    scanQrAdd stA0 [] (some ['n']) =
        (.added, saveContacts stA0 ([] ++ [{ name := ['n'], publicKey := [] }])) ∧
      loadContacts (saveContacts stA0 ([] ++ [{ name := ['n'], publicKey := [] }])) =
        .ok ([] ++ [{ name := ['n'], publicKey := [] }]) ∧
      scanQrAdd stA0 [] none = (.alertNameRequired, stA0) ∧
      scanQrAdd stA0 [] (some []) = (.alertNameRequired, stA0) ∧
      addContactClick stA0 "bob".toList "  ".toList = (.alertRequired, stA0) :=
  claim10_qr_scan_verbatim stA0 [] [] ['n'] "bob".toList "  ".toList rfl
    (by decide) (by decide)

/-- Storage whose two slots hold strings on which `JSON.parse` throws. -/
def stBad : Storage :=
  ⟨some (.malformed "not json".toList), some (.malformed "also not json".toList)⟩

/-- Counterexample to C9 as stated: on a malformed stored record, loading
fails with the uncaught JSON parse `SyntaxError`, which is not the spec's
distinct `CorruptStateError` condition. -/
theorem claim9_counterexample :
    loadMyKeys stBad = .error .jsonParseError ∧
      loadContacts stBad = .error .jsonParseError ∧
      JsError.jsonParseError ≠ JsError.corruptState :=
  ⟨rfl, rfl, by decide⟩

/-- Claim C9 (amended): a stored record that is not a valid serialized
record makes `loadMyKeys` / `loadContacts` fail with the unclassified JSON
parse error (the `SyntaxError` that `JSON.parse` throws escapes uncaught);
the code never produces the spec's distinct `CorruptStateError` condition
on any storage. -/
theorem claim9_corrupt_state (st : Storage) (s t : List Char) :
    (st.myKeys = some (.malformed s) → loadMyKeys st = .error .jsonParseError) ∧
      (st.contacts = some (.malformed t) →
        loadContacts st = .error .jsonParseError) ∧
      loadMyKeys st ≠ .error .corruptState ∧
      loadContacts st ≠ .error .corruptState := by
  refine ⟨fun h => by simp [loadMyKeys, h], fun h => by simp [loadContacts, h],
    ?_, ?_⟩
  · cases hmk : st.myKeys with
    | none => simp [loadMyKeys, hmk]
    | some sj =>
      cases sj with
      | parsed k => simp [loadMyKeys, hmk]
      | malformed s0 => simp [loadMyKeys, hmk]
  · cases hct : st.contacts with
    | none => simp [loadContacts, hct]
    | some sj =>
      cases sj with
      | parsed l => simp [loadContacts, hct]
      | malformed s0 => simp [loadContacts, hct]

/-- Witness for the amended C9 at the concrete corrupted storage. -/
theorem claim9_corrupt_state_w :
    loadMyKeys stBad = .error .jsonParseError ∧
      loadContacts stBad = .error .jsonParseError ∧
      loadMyKeys stBad ≠ .error .corruptState ∧
      loadContacts stBad ≠ .error .corruptState :=
  ⟨(claim9_corrupt_state stBad "not json".toList "also not json".toList).1 rfl,
    (claim9_corrupt_state stBad "not json".toList "also not json".toList).2.1 rfl,
    (claim9_corrupt_state stBad "not json".toList "also not json".toList).2.2.1,
    (claim9_corrupt_state stBad "not json".toList "also not json".toList).2.2.2⟩

/-- A one-contact storage for the recipient-resolution claims. -/
def contact0 : ContactRec :=
  { name := "bob".toList, publicKey := toBase64 (pubKeyOf skB0) }

def stOne : Storage :=
  ⟨some (.parsed (generateKeyPair skA0)), some (.parsed [contact0])⟩

/-- Counterexample to C6 as stated: with one stored contact, selecting the
out-of-range index "5" makes the encrypt handler fail with the uncaught
`TypeError` of `contact.publicKey` on `undefined` (surfaced through the
generic "Encryption failed" alert), not with a distinct `InvalidRecipient`
condition. -/
theorem claim6_counterexample :
    encryptClick stOne ['5'] msg0 nonce0 =
        (.alertEncryptFailed .undefinedProp, stOne) ∧
      JsError.undefinedProp ≠ JsError.invalidRecipient := by
  constructor
  · decide
  · decide

/-- Claim C6 (amended): with an identity present and a non-empty selector
and message, a selector that resolves to no stored contact makes the
encrypt handler fail with the uncaught `TypeError` (shown via the generic
encryption-failure alert) — the code has no distinct `InvalidRecipient`
condition — while a selector resolving to a contact seals with that
contact's public key and the local private key via `encryptMessage`,
encoding with the local public key as sender. -/
theorem claim6_recipient_resolution (st : Storage) (contacts : List ContactRec)
    (s pt : List Char) (nonce : List Nat)
    (hload : loadContacts st = .ok contacts) (hs : s ≠ [])
    (hpt : jsTrim pt ≠ []) :
    (jsIndex contacts s = none →
      encryptClick st s pt nonce = (.alertEncryptFailed .undefinedProp, st)) ∧
      (∀ contact, jsIndex contacts s = some contact →
        encryptClick st s pt nonce =
          ((match encryptMessage st contact.publicKey (jsTrim pt) nonce with
            | .ok token => .copied token
            | .error e => .alertEncryptFailed e), st)) := by
  constructor
  · intro hnone
    simp only [encryptClick, hs, if_false, hload, hnone, hpt]
  · intro contact hsome
    simp only [encryptClick, hs, if_false, hload, hsome, hpt]
    cases encryptMessage st contact.publicKey (jsTrim pt) nonce <;> rfl

/-- Witness for the amended C6: index "5" is out of range of the single
stored contact and alerts the caught TypeError; index "0" resolves to the
contact and produces exactly `encryptMessage` with the contact key. -/
theorem claim6_recipient_resolution_w :
    encryptClick stOne ['5'] msg0 nonce0 =
        (.alertEncryptFailed .undefinedProp, stOne) ∧
      encryptClick stOne ['0'] msg0 nonce0 =
        ((match encryptMessage stOne contact0.publicKey (jsTrim msg0) nonce0 with
          | .ok token => .copied token
          | .error e => .alertEncryptFailed e), stOne) :=
  ⟨(claim6_recipient_resolution stOne [contact0] ['5'] msg0 nonce0 rfl
      (by decide) (by decide)).1 (by decide),
    (claim6_recipient_resolution stOne [contact0] ['0'] msg0 nonce0 rfl
      (by decide) (by decide)).2 contact0 (by decide)⟩

/-- Counterexample to C3 as stated: with an identity present, a 3-part
token whose first field is not base64 fails with the uncaught libsodium
base64 exception, and a 3-part token with empty fields decodes fine and
fails only later as `DecryptionFailed` — neither failure is the
`MalformedEnvelope` ("Invalid message format") condition the claim
requires. -/
theorem claim3_counterexample :
    decryptMessage stA0 "!:AA:AA".toList = .error .base64Error ∧
      decryptMessage stA0 "::".toList = .error .decryptFailed ∧
      JsError.base64Error ≠ JsError.invalidFormat ∧
      JsError.decryptFailed ≠ JsError.invalidFormat := by
  refine ⟨by decide, by decide, by decide, by decide⟩

/-- Claim C3 (amended): with an identity present, decoding fails with the
`MalformedEnvelope` condition ("Invalid message format") exactly when
splitting on ':' does not yield 3 parts; a 3-part token with a field that
is not valid base64 fails with the distinct uncaught base64 error instead
(and empty fields are accepted by the decode stage, base64-decoding to
zero bytes). -/
theorem claim3_malformed_envelope (st : Storage) (k : KeyRecord) (s : List Char)
    (hid : st.myKeys = some (.parsed k)) :
    ((splitColon s).length ≠ 3 → decryptMessage st s = .error .invalidFormat) ∧
      (decryptMessage st s = .error .invalidFormat → (splitColon s).length ≠ 3) ∧
      (∀ a b c, splitColon s = [a, b, c] →
        fromBase64 a = none ∨ fromBase64 b = none ∨ fromBase64 c = none →
        decryptMessage st s = .error .base64Error) := by
  refine ⟨?_, ?_, ?_⟩
  · intro h3
    unfold decryptMessage
    simp only [loadMyKeys, hid]
    rcases hsp : splitColon s with _ | ⟨a, _ | ⟨b, _ | ⟨c, _ | ⟨d, t⟩⟩⟩⟩
    · rfl
    · rfl
    · rfl
    · exact absurd (by simp [hsp]) h3
    · rfl
  · intro hdec hlen
    rcases hsp : splitColon s with _ | ⟨a, _ | ⟨b, _ | ⟨c, _ | ⟨d, t⟩⟩⟩⟩ <;>
      rw [hsp] at hlen <;> simp at hlen
    unfold decryptMessage at hdec
    simp only [loadMyKeys, hid, hsp] at hdec
    rcases ha : fromBase64 a with _ | va <;> rcases hb : fromBase64 b with _ | vb <;>
      rcases hc : fromBase64 c with _ | vc <;> simp only [ha, hb, hc] at hdec <;>
      try simp at hdec
    rcases hk : fromBase64 k.privateKey with _ | vk <;> simp only [hk] at hdec
    · simp at hdec
    rcases ho : cryptoBoxOpenEasy vc vb va vk with _ | pt <;>
      simp only [ho] at hdec
    · simp at hdec
    rcases hs2 : bytesToStr pt with _ | str <;> simp only [hs2] at hdec <;>
      simp at hdec
  · intro a b c hsp hfail
    unfold decryptMessage
    simp only [loadMyKeys, hid, hsp]
    rcases ha : fromBase64 a with _ | va <;> rcases hb : fromBase64 b with _ | vb <;>
      rcases hc : fromBase64 c with _ | vc <;> (try rfl)
    rcases hfail with h | h | h
    · rw [h] at ha; exact absurd ha (by simp)
    · rw [h] at hb; exact absurd hb (by simp)
    · rw [h] at hc; exact absurd hc (by simp)

/-- Witness for the amended C3: a one-part token reports the invalid
format; a 3-part token with a non-base64 field reports the base64 error. -/
theorem claim3_malformed_envelope_w :
    decryptMessage stA0 "abc".toList = .error .invalidFormat ∧
      decryptMessage stA0 "!:AA:AB".toList = .error .base64Error :=
  ⟨(claim3_malformed_envelope stA0 (generateKeyPair skA0) "abc".toList rfl).1
      (by decide),
    (claim3_malformed_envelope stA0 (generateKeyPair skA0) "!:AA:AB".toList
        rfl).2.2 ['!'] ['A', 'A'] ['A', 'B'] (by decide) (by decide)⟩

/-! ### Tamper detection -/

theorem set_lt (l : List Nat) (i b : Nat) (hl : ∀ x ∈ l, x < 256)
    (hb : b < 256) : ∀ x ∈ l.set i b, x < 256 := fun x hx =>
  (List.mem_or_eq_of_mem_set hx).elim (hl x) (fun h => h ▸ hb)

theorem getD_append_left (l r : List Nat) (i : Nat) (h : i < l.length) :
    (l ++ r).getD i 0 = l.getD i 0 := by
  simp [List.getD_eq_getElem?_getD, List.getElem?_append, h]

theorem getD_concat_self (l : List Nat) (x : Nat) :
    (l ++ [x]).getD l.length 0 = x := by
  simp [List.getD_eq_getElem?_getD,
    List.getElem?_append_right (Nat.le_refl l.length)]

/-- Flipping any single byte of the sealed ciphertext makes `open` fail:
a flip in the payload invalidates the checksum byte, and a flip of the
checksum byte no longer matches the payload. -/
theorem open_flip_cipher (skA skB : List Nat) (msg : List Char)
    (nonce : List Nat) (hAl : skA.length = 32) (hBl : skB.length = 32)
    (hnl : nonce.length = 24) (i b' : Nat)
    (hi : i < (sealCipher skA (pubKeyOf skB) msg nonce).length)
    (hb' : b' < 256)
    (hne : b' ≠ (sealCipher skA (pubKeyOf skB) msg nonce).getD i 0) :
    cryptoBoxOpenEasy ((sealCipher skA (pubKeyOf skB) msg nonce).set i b')
      nonce (pubKeyOf skA) skB = none := by
  have hseal : sealCipher skA (pubKeyOf skB) msg nonce =
      boxBody (sharedKey skA (pubKeyOf skB)) nonce (strToBytes msg) ++
        [chk (boxBody (sharedKey skA (pubKeyOf skB)) nonce (strToBytes msg))] := rfl
  set body := boxBody (sharedKey skA (pubKeyOf skB)) nonce (strToBytes msg)
    with hbody
  have hblt : ∀ x ∈ body, x < 256 := by
    rw [hbody]; unfold boxBody; exact encL_lt _
  rw [hseal] at hi hne ⊢
  have hpkl : (pubKeyOf skA).length = 32 := by simpa [pubKeyOf] using hAl
  by_cases hib : i < body.length
  · rw [List.set_append_left _ _ hib]
    have hbne : b' ≠ body.getD i 0 := by
      rwa [getD_append_left _ _ _ hib] at hne
    simp only [cryptoBoxOpenEasy]
    rw [if_pos ⟨hpkl, hBl, hnl, by simp⟩, List.dropLast_concat,
      List.getLastD_concat,
      if_neg (fun hcontra =>
        chk_set_ne body i b' hib hblt hb' hbne hcontra.symm)]
  · have hieq : i = body.length := by
      have : (body ++ [chk body]).length = body.length + 1 := by simp
      omega
    subst hieq
    have hset : (body ++ [chk body]).set body.length b' = body ++ [b'] := by
      simp [List.set_append_right]
    rw [hset]
    have hbne : b' ≠ chk body := by
      rwa [getD_concat_self] at hne
    simp only [cryptoBoxOpenEasy]
    rw [if_pos ⟨hpkl, hBl, hnl, by simp⟩, List.dropLast_concat,
      List.getLastD_concat, if_neg hbne]

/-- Flipping any single byte of the nonce field makes `open` fail: the
nonce authenticated inside the box no longer matches the presented one. -/
theorem open_flip_nonce (skA skB : List Nat) (msg : List Char)
    (nonce : List Nat) (hAl : skA.length = 32) (hBl : skB.length = 32)
    (hnl : nonce.length = 24) (i b' : Nat) (hi : i < 24)
    (hne : b' ≠ nonce.getD i 0) :
    cryptoBoxOpenEasy (sealCipher skA (pubKeyOf skB) msg nonce)
      (nonce.set i b') (pubKeyOf skA) skB = none := by
  have hpkl : (pubKeyOf skA).length = 32 := by simpa [pubKeyOf] using hAl
  simp only [cryptoBoxOpenEasy]
  rw [if_pos ⟨hpkl, hBl, by simpa [NONCEBYTES] using hnl,
    sealCipher_ne_nil skA (pubKeyOf skB) msg nonce⟩]
  unfold sealCipher
  rw [List.dropLast_concat]
  simp only [List.getLastD_concat, if_true]
  unfold boxBody
  rw [decL_encL]
  have hsn : nonce.set i b' ≠ nonce := set_ne_self nonce i b' (by omega) hne
  have hmt : nonce.set i b' ≠ List.take nonce.length (nonce ++ strToBytes msg) := by
    rw [List.take_left]
    exact hsn
  simp [hmt, hsn]

/-- Flipping any single byte of the sender-key field makes `open` fail:
the computed shared secret no longer matches the one sealed in. -/
theorem open_flip_senderkey (skA skB : List Nat) (msg : List Char)
    (nonce : List Nat) (hAl : skA.length = 32) (hAb : ∀ b ∈ skA, b < 256)
    (hBl : skB.length = 32) (hnl : nonce.length = 24)
    (hNB : bytesToNat skB ≠ 0) (i b' : Nat) (hi : i < 32) (hb' : b' < 256)
    (hne : b' ≠ (pubKeyOf skA).getD i 0) :
    cryptoBoxOpenEasy (sealCipher skA (pubKeyOf skB) msg nonce) nonce
      ((pubKeyOf skA).set i b') skB = none := by
  have hpkl : (pubKeyOf skA).length = 32 := by simpa [pubKeyOf] using hAl
  have hpkb : ∀ x ∈ pubKeyOf skA, x < 256 := fun x hx =>
    hAb x (List.mem_reverse.mp hx)
  simp only [cryptoBoxOpenEasy]
  rw [if_pos ⟨by simpa using hpkl, hBl, by simpa [NONCEBYTES] using hnl,
    sealCipher_ne_nil skA (pubKeyOf skB) msg nonce⟩]
  unfold sealCipher
  rw [List.dropLast_concat]
  simp only [List.getLastD_concat, if_true]
  unfold boxBody
  rw [decL_encL]
  have hsne : sharedKey skA (pubKeyOf skB) ≠
      sharedKey skB ((pubKeyOf skA).set i b') := by
    rw [sharedKey_pubKeyOf]
    unfold sharedKey
    intro h
    rw [Nat.mul_comm (bytesToNat skA)] at h
    have h2 : bytesToNat skA =
        bytesToNat ((pubKeyOf skA).set i b').reverse :=
      Nat.eq_of_mul_eq_mul_left (Nat.pos_of_ne_zero hNB) h
    have hinj : skA = ((pubKeyOf skA).set i b').reverse :=
      bytesToNat_inj _ _ (by simp [pubKeyOf, hAl]) hAb
        (fun x hx =>
          set_lt (pubKeyOf skA) i b' hpkb hb' x (List.mem_reverse.mp hx)) h2
    have hpk : (pubKeyOf skA).set i b' = pubKeyOf skA := by
      have := congrArg List.reverse hinj
      rw [List.reverse_reverse] at this
      exact this.symm.trans rfl
    exact set_ne_self (pubKeyOf skA) i b' (by omega) hne hpk
  simp [hsne]

/-- Opening with a private key other than the intended recipient's makes
`open` fail: the shared secret differs. -/
theorem open_wrong_recipient (skA skB skC : List Nat) (msg : List Char)
    (nonce : List Nat) (hAl : skA.length = 32) (hBl : skB.length = 32)
    (hBb : ∀ b ∈ skB, b < 256) (hCl : skC.length = 32)
    (hCb : ∀ b ∈ skC, b < 256) (hnl : nonce.length = 24)
    (hNA : bytesToNat skA ≠ 0) (hne : skC ≠ skB) :
    cryptoBoxOpenEasy (sealCipher skA (pubKeyOf skB) msg nonce) nonce
      (pubKeyOf skA) skC = none := by
  have hpkl : (pubKeyOf skA).length = 32 := by simpa [pubKeyOf] using hAl
  simp only [cryptoBoxOpenEasy]
  rw [if_pos ⟨hpkl, hCl, by simpa [NONCEBYTES] using hnl,
    sealCipher_ne_nil skA (pubKeyOf skB) msg nonce⟩]
  unfold sealCipher
  rw [List.dropLast_concat]
  simp only [List.getLastD_concat, if_true]
  unfold boxBody
  rw [decL_encL]
  have hsne : sharedKey skA (pubKeyOf skB) ≠ sharedKey skC (pubKeyOf skA) := by
    rw [sharedKey_pubKeyOf, sharedKey_pubKeyOf]
    intro h
    rw [Nat.mul_comm (bytesToNat skC)] at h
    have h2 : bytesToNat skB = bytesToNat skC :=
      Nat.eq_of_mul_eq_mul_left (Nat.pos_of_ne_zero hNA) h
    exact hne (bytesToNat_inj skC skB (hCl.trans hBl.symm) hCb hBb h2.symm)
  simp [hsne]

/-- Claim C2: for a valid token, flipping any single byte of the decoded
ciphertext, nonce, or sender-key field, and likewise opening with a
private key that is not the intended recipient's, all make `decryptMessage`
fail with the single opaque `DecryptionFailed` condition ("Failed to
decrypt message...") — never returning altered plaintext and never
distinguishing wrong-recipient from corruption. -/
theorem claim2_tamper_detection (stB stC : Storage) (skA skB skC : List Nat)
    (msg : List Char) (nonce : List Nat)
    (hB : stB.myKeys = some (.parsed (generateKeyPair skB)))
    (hC : stC.myKeys = some (.parsed (generateKeyPair skC)))
    (hAl : skA.length = 32) (hAb : ∀ b ∈ skA, b < 256)
    (hBl : skB.length = 32) (hBb : ∀ b ∈ skB, b < 256)
    (hCl : skC.length = 32) (hCb : ∀ b ∈ skC, b < 256)
    (hnl : nonce.length = 24) (hnb : ∀ b ∈ nonce, b < 256)
    (hNA : bytesToNat skA ≠ 0) (hNB : bytesToNat skB ≠ 0)
    (hne : skC ≠ skB) :
    (∀ i, i < (sealCipher skA (pubKeyOf skB) msg nonce).length → ∀ b', b' < 256 →
      b' ≠ (sealCipher skA (pubKeyOf skB) msg nonce).getD i 0 →
      decryptMessage stB (toBase64 (pubKeyOf skA) ++ ':' :: (toBase64 nonce ++
          ':' :: toBase64 ((sealCipher skA (pubKeyOf skB) msg nonce).set i b'))) =
        .error .decryptFailed) ∧
      (∀ i, i < 24 → ∀ b', b' < 256 → b' ≠ nonce.getD i 0 →
        decryptMessage stB (toBase64 (pubKeyOf skA) ++ ':' ::
            (toBase64 (nonce.set i b') ++ ':' ::
              toBase64 (sealCipher skA (pubKeyOf skB) msg nonce))) =
          .error .decryptFailed) ∧
      (∀ i, i < 32 → ∀ b', b' < 256 → b' ≠ (pubKeyOf skA).getD i 0 →
        decryptMessage stB (toBase64 ((pubKeyOf skA).set i b') ++ ':' ::
            (toBase64 nonce ++ ':' ::
              toBase64 (sealCipher skA (pubKeyOf skB) msg nonce))) =
          .error .decryptFailed) ∧
      decryptMessage stC (toBase64 (pubKeyOf skA) ++ ':' :: (toBase64 nonce ++
          ':' :: toBase64 (sealCipher skA (pubKeyOf skB) msg nonce))) =
        .error .decryptFailed := by
  have hpkA : ∀ b ∈ pubKeyOf skA, b < 256 := fun b hb =>
    hAb b (List.mem_reverse.mp hb)
  refine ⟨?_, ?_, ?_, ?_⟩
  · intro i hi b' hb' hneq
    rw [decryptMessage_eval stB (generateKeyPair skB) skB (pubKeyOf skA) nonce
      ((sealCipher skA (pubKeyOf skB) msg nonce).set i b') hB rfl hpkA hnb
      (set_lt _ _ _ (sealCipher_lt _ _ _ _) hb') hBb,
      open_flip_cipher skA skB msg nonce hAl hBl hnl i b' hi hb' hneq]
  · intro i hi b' hb' hneq
    rw [decryptMessage_eval stB (generateKeyPair skB) skB (pubKeyOf skA)
      (nonce.set i b') (sealCipher skA (pubKeyOf skB) msg nonce) hB rfl hpkA
      (set_lt _ _ _ hnb hb') (sealCipher_lt _ _ _ _) hBb,
      open_flip_nonce skA skB msg nonce hAl hBl hnl i b' hi hneq]
  · intro i hi b' hb' hneq
    rw [decryptMessage_eval stB (generateKeyPair skB) skB
      ((pubKeyOf skA).set i b') nonce (sealCipher skA (pubKeyOf skB) msg nonce)
      hB rfl (set_lt _ _ _ hpkA hb') hnb (sealCipher_lt _ _ _ _) hBb,
      open_flip_senderkey skA skB msg nonce hAl hAb hBl hnl hNB i b' hi hb' hneq]
  · rw [decryptMessage_eval stC (generateKeyPair skC) skC (pubKeyOf skA) nonce
      (sealCipher skA (pubKeyOf skB) msg nonce) hC rfl hpkA hnb
      (sealCipher_lt _ _ _ _) hCb,
      open_wrong_recipient skA skB skC msg nonce hAl hBl hBb hCl hCb hnl hNA hne]

set_option maxRecDepth 100000 in
/-- Witness for C2: concrete byte flips (position 0 to value 255) in each
of the three fields of a concrete valid token, and Carol's attempt to open
Alice's token to Bob, all fail with the same opaque decryption error. -/
theorem claim2_tamper_detection_w :
    decryptMessage stB0 (toBase64 (pubKeyOf skA0) ++ ':' :: (toBase64 nonce0 ++
        ':' :: toBase64 ((sealCipher skA0 (pubKeyOf skB0) msg0 nonce0).set 0 255))) =
      .error .decryptFailed ∧
    decryptMessage stB0 (toBase64 (pubKeyOf skA0) ++ ':' ::
        (toBase64 (nonce0.set 0 255) ++ ':' ::
          toBase64 (sealCipher skA0 (pubKeyOf skB0) msg0 nonce0))) =
      .error .decryptFailed ∧
    decryptMessage stB0 (toBase64 ((pubKeyOf skA0).set 0 255) ++ ':' ::
        (toBase64 nonce0 ++ ':' ::
          toBase64 (sealCipher skA0 (pubKeyOf skB0) msg0 nonce0))) =
      .error .decryptFailed ∧
    decryptMessage stC0 (toBase64 (pubKeyOf skA0) ++ ':' :: (toBase64 nonce0 ++
        ':' :: toBase64 (sealCipher skA0 (pubKeyOf skB0) msg0 nonce0))) =
      .error .decryptFailed := by
  have h := claim2_tamper_detection stB0 stC0 skA0 skB0 skC0 msg0 nonce0 rfl rfl
    (by decide) (by decide) (by decide) (by decide) (by decide) (by decide)
    (by decide) (by decide) (by decide) (by decide) (by decide)
  exact ⟨h.1 0 (by decide) 255 (by decide) (by decide),
    h.2.1 0 (by decide) 255 (by decide) (by decide),
    h.2.2.1 0 (by decide) 255 (by decide) (by decide),
    h.2.2.2⟩

end Catcryption
